import Mathlib

/-!
# Verification of the RAG orchestration core of `serarm/llm-apps`

The repository consists of course notebooks that delegate all heavy lifting
(embedding, vector indexing, LLM calls) to third-party libraries.  Its
specification describes a minimal retrieval-augmented generation (RAG)
orchestration core: Chunker, Vector Index, Retriever, Prompt Assembler and
Orchestrator.  That core is not implemented under the repository sources
(only library callers appear there), so those components are modelled from
the specification, as noted on each definition.  The one piece of original
repository code with its own logic, `auto_retrieve_fn` from
`6_llamaindex_RAQA_tool.ipynb`, is embedded directly from the notebook
source.

Text is modelled as a list of characters, and embedding vectors as lists of
rationals.  Cosine similarity of rational vectors is irrational in general,
so the index orders entries by the score `sign(dot) * dot^2 / (|u|^2 |v|^2)`,
which is the image of the cosine under the strictly monotone map
`x ↦ sign(x) * x^2` and therefore induces exactly the cosine-similarity
order; this is proved below (`score_le_iff_cosineSim_le`).
-/

namespace RagCore

/-- Text is modelled as a sequence of characters. -/
abbrev Text := List Char

/-- Modelled from the spec: a Passage is
`{id: integer, text: string, source: string, metadata: string-to-string mapping}`. -/
structure Passage where
  id : Nat
  text : Text
  source : Text
  metadata : List (Text × Text)
  deriving Repr, DecidableEq

/-- Modelled from the spec: an Index Entry pairs a Passage with its vector. -/
structure IndexEntry where
  passage : Passage
  vector : List ℚ
  deriving Repr, DecidableEq

/-- Modelled from the spec: the error kinds of §7: `DimensionMismatch`,
`EmbeddingError` and `GenerationError` (the latter two carry the
collaborator's message, surfaced unchanged). -/
inductive RagError where
  | dimensionMismatch
  | embeddingError (msg : Text)
  | generationError (msg : Text)
  deriving Repr, DecidableEq

/-- Modelled from the spec: the brute-force in-memory Vector Index with a
configured dimensionality and a monotonic insertion counter. -/
structure VectorIndex where
  dim : Nat
  nextId : Nat
  entries : List IndexEntry
  deriving Repr, DecidableEq

/-- Modelled from the spec: a freshly constructed, empty index of the
configured dimensionality. -/
def VectorIndex.empty (dim : Nat) : VectorIndex :=
  { dim := dim, nextId := 0, entries := [] }

/-- Modelled from the spec: `insert(passage, vector)` assigns a new unique id
(the monotonic counter), stores the Index Entry and returns the id; it fails
with `DimensionMismatch` if the vector length disagrees with the configured
dimensionality. -/
def VectorIndex.insert (idx : VectorIndex) (text source : Text)
    (metadata : List (Text × Text)) (v : List ℚ) :
    Except RagError (Nat × VectorIndex) :=
  if v.length ≠ idx.dim then
    .error .dimensionMismatch
  else
    .ok (idx.nextId,
      { idx with
        nextId := idx.nextId + 1
        entries := idx.entries ++
          [{ passage := { id := idx.nextId, text := text, source := source,
                          metadata := metadata }, vector := v }] })

/-- The state seen by the caller after an insertion attempt: the new index on
success, the untouched old index on failure. -/
def VectorIndex.insertState (idx : VectorIndex) (text source : Text)
    (metadata : List (Text × Text)) (v : List ℚ) : VectorIndex :=
  match idx.insert text source metadata v with
  | .ok (_, idx2) => idx2
  | .error _ => idx

/-- Dot product of two rational vectors (extra coordinates ignored). -/
def dot : List ℚ → List ℚ → ℚ
  | x :: xs, y :: ys => x * y + dot xs ys
  | _, _ => 0

/-- Squared euclidean norm. -/
def normSq (v : List ℚ) : ℚ := dot v v

/-- Modelled from the spec: the similarity score used to rank entries.  It is
`sign(dot q v) * (dot q v)^2 / (normSq q * normSq v)`, the image of the cosine
similarity under the strictly monotone map `x ↦ sign(x) * x^2`, hence it
orders vectors exactly as cosine similarity does (`score_le_iff_cosineSim_le`
below); zero-norm vectors get score `0`. -/
def score (q v : List ℚ) : ℚ :=
  if normSq q * normSq v = 0 then 0
  else dot q v * |dot q v| / (normSq q * normSq v)

/-- Modelled from the spec: metadata satisfies the filters when every filter
key is bound in the metadata to exactly the filter value (exact
string-equality per key). -/
def matchesFilters (metadata filters : List (Text × Text)) : Bool :=
  filters.all fun kv =>
    match metadata.lookup kv.1 with
    | some v => v = kv.2
    | none => false

/-- Modelled from the spec: the retrieval order on entries for a query vector
`q`: strictly greater similarity first; ties broken by ascending insertion
id. -/
def entryBefore (q : List ℚ) (e₁ e₂ : IndexEntry) : Prop :=
  score q e₂.vector < score q e₁.vector ∨
    (score q e₁.vector = score q e₂.vector ∧ e₁.passage.id ≤ e₂.passage.id)

instance (q : List ℚ) : DecidableRel (entryBefore q) := fun e₁ e₂ => by
  unfold entryBefore; infer_instance

instance entryBefore.isTotal (q : List ℚ) :
    IsTotal IndexEntry (entryBefore q) where
  total e₁ e₂ := by
    rcases lt_trichotomy (score q e₁.vector) (score q e₂.vector) with h | h | h
    · exact Or.inr (Or.inl h)
    · rcases Nat.le_total e₁.passage.id e₂.passage.id with hid | hid
      · exact Or.inl (Or.inr ⟨h, hid⟩)
      · exact Or.inr (Or.inr ⟨h.symm, hid⟩)
    · exact Or.inl (Or.inl h)

instance entryBefore.isTrans (q : List ℚ) :
    IsTrans IndexEntry (entryBefore q) where
  trans e₁ e₂ e₃ h₁₂ h₂₃ := by
    rcases h₁₂ with h₁₂ | ⟨hs₁₂, hi₁₂⟩
    · rcases h₂₃ with h₂₃ | ⟨hs₂₃, _⟩
      · exact Or.inl (h₂₃.trans h₁₂)
      · exact Or.inl (hs₂₃ ▸ h₁₂)
    · rcases h₂₃ with h₂₃ | ⟨hs₂₃, hi₂₃⟩
      · exact Or.inl (hs₁₂ ▸ h₂₃)
      · exact Or.inr ⟨hs₁₂.trans hs₂₃, hi₁₂.trans hi₂₃⟩

/-- Modelled from the spec: the entries `search` ranks: the stored entries
whose metadata satisfies all filters, sorted by decreasing similarity with
ties broken by ascending insertion id, truncated to `topK`. -/
def VectorIndex.searchEntries (idx : VectorIndex) (q : List ℚ) (topK : Nat)
    (filters : List (Text × Text)) : List IndexEntry :=
  (((idx.entries.filter fun e => matchesFilters e.passage.metadata filters)
    |>.insertionSort (entryBefore q)).take topK)

/-- Modelled from the spec: `search(query_vector, top_k, filters)` returns the
`top_k` passages ordered by decreasing cosine similarity, ties broken by
ascending insertion id; fewer than `top_k` when the filtered set is smaller,
empty (never an error) when nothing matches. -/
def VectorIndex.search (idx : VectorIndex) (q : List ℚ) (topK : Nat)
    (filters : List (Text × Text)) : List Passage :=
  (idx.searchEntries q topK filters).map (·.passage)

/-- Modelled from the spec: a Query is
`{text, top_k, filters (optional, here possibly empty)}`. -/
structure Query where
  text : Text
  topK : Nat
  filters : List (Text × Text)
  deriving Repr, DecidableEq

/-- Modelled from the spec: an Answer is the completion text plus the ordered
ids of the retrieved passages. -/
structure Answer where
  text : Text
  sources : List Nat
  deriving Repr, DecidableEq

/-- Modelled from the spec: the external Embedder collaborator
`embed(text) -> Vector`, which may fail with an `EmbeddingError` message.
The extra `Nat` argument is the attempt number, so that the absence of
retries at the Retriever layer is expressible: the Retriever only ever
consults attempt `0`. -/
abbrev Embedder := Nat → Text → Except Text (List ℚ)

/-- Modelled from the spec: the external LLM Client collaborator
`generate(prompt) -> string`, which may fail with a `GenerationError`
message. -/
abbrev LlmClient := Text → Except Text Text

/-- Modelled from the spec: `retrieve(query)` embeds `query.text` via the
Embedder (one single call, attempt `0`), then searches the index; an Embedder
failure surfaces unchanged as `EmbeddingError`. -/
def retrieve (idx : VectorIndex) (q : Query) (emb : Embedder) :
    Except RagError (List Passage) :=
  match emb 0 q.text with
  | .error m => .error (.embeddingError m)
  | .ok v => .ok (idx.search v q.topK q.filters)

/-- Modelled from the spec: the fixed instruction header of the prompt
template. -/
def promptHeader : Text :=
  "Answer the question using the context below.\n".toList

/-- Modelled from the spec: one retrieved passage rendered into the prompt,
its text prefixed by its source identifier. -/
def renderPassage (p : Passage) : Text :=
  p.source ++ ": ".toList ++ p.text ++ ['\n']

/-- Modelled from the spec: `assemble(query_text, passages)` concatenates the
fixed instruction header, each passage rendered in the given order, then the
query. -/
def assemble (queryText : Text) (passages : List Passage) : Text :=
  promptHeader ++ (passages.map renderPassage).flatten ++ queryText

/-- Modelled from the spec: `answer(query)` calls the Retriever, then the
Prompt Assembler, then the LLM Client, and packages the completion together
with the retrieved passage ids; an LLM failure surfaces as `GenerationError`
and no partial Answer is produced. -/
def answer (idx : VectorIndex) (q : Query) (emb : Embedder)
    (llm : LlmClient) : Except RagError Answer :=
  match retrieve idx q emb with
  | .error e => .error e
  | .ok ps =>
    match llm (assemble q.text ps) with
    | .error m => .error (.generationError m)
    | .ok t => .ok { text := t, sources := ps.map (·.id) }

/-! ### Chunker -/

/-- Modelled from the spec: the Chunker cuts the text into chunks of at most
`size` characters, each chunk starting `step = size - overlap` characters
after the previous one (so consecutive chunks share `overlap` characters);
a trailing fragment, however small, is emitted as its own chunk.  A `step`
of `0` (overlap not smaller than the size) degenerates to a single chunk. -/
def chunkText (size step : Nat) (t : Text) : List Text :=
  if t.length ≤ size ∨ step = 0 then
    if t = [] then [] else [t]
  else
    t.take size :: chunkText size step (t.drop step)
  termination_by t.length
  decreasing_by
    rename_i h
    push_neg at h
    simp only [List.length_drop]
    omega

/-- Left inverse of the Chunker: concatenates the chunks back, ignoring the
configured overlap by keeping only the first `step` characters of every chunk
except the last. -/
def dechunk (step : Nat) : List Text → Text
  | [] => []
  | [c] => c
  | c :: cs => c.take step ++ dechunk step cs

/-- Modelled from the spec: the Chunker tags each chunk, in source order,
with the originating source identifier, assigning consecutive ids from
`startId`. -/
def passagesOf (source : Text) (startId : Nat) : List Text → List Passage
  | [] => []
  | c :: cs =>
    { id := startId, text := c, source := source,
      metadata := [("source".toList, source)] } :: passagesOf source (startId + 1) cs

/-- Modelled from the spec: the Chunker, producing Passages in source order. -/
def chunkerPassages (source : Text) (size overlap : Nat) (t : Text) :
    List Passage :=
  passagesOf source 0 (chunkText size (size - overlap) t)

/-! ### Orchestrator state machine -/

/-- Modelled from the spec: the two Orchestrator states. -/
inductive Phase where
  | indexing
  | serving
  deriving Repr, DecidableEq

/-- Modelled from the spec: the Orchestrator holds its phase and the Vector
Index it populates during `Indexing` and serves from during `Serving`. -/
structure Orchestrator where
  phase : Phase
  index : VectorIndex
  deriving Repr, DecidableEq

/-- Modelled from the spec: the events driving the Orchestrator: ingesting
one embedded passage, completing ingestion without fatal error, and
answering a query. -/
inductive OrchEvent where
  | ingest (text source : Text) (metadata : List (Text × Text)) (v : List ℚ)
  | finishIngest
  | ask (q : Query)
  deriving Repr, DecidableEq

/-- Modelled from the spec: the Orchestrator transition function.  Ingestion
only happens in `Indexing`; completing ingestion moves `Indexing` to
`Serving`; answering a query never changes the state. -/
def orchStep (o : Orchestrator) : OrchEvent → Orchestrator
  | .ingest text source metadata v =>
    match o.phase with
    | .indexing => { o with index := o.index.insertState text source metadata v }
    | .serving => o
  | .finishIngest =>
    match o.phase with
    | .indexing => { o with phase := .serving }
    | .serving => o
  | .ask _ => o

/-- A run of the Orchestrator over a sequence of events. -/
def orchRun (o : Orchestrator) (events : List OrchEvent) : Orchestrator :=
  events.foldl orchStep o

end RagCore

namespace AutoRetrieve

/-- The notebook's module-level constant: `top_k = 3`. -/
def top_k : Nat := 3

/-- Embedding of the Python truthiness default `query = query or "Query"`
from `auto_retrieve_fn`: `None` and the empty string are falsy and are
replaced by the literal `"Query"`; any other string is kept. -/
def defaultedQuery (query : Option String) : String :=
  match query with
  | none => "Query"
  | some s => if s = "" then "Query" else s

/-- Embedding of the filter construction in `auto_retrieve_fn`:
`[ExactMatchFilter(key=k, value=v) for k, v in zip(filter_key_list,
filter_value_list)]`.  Python's `zip` pairs position-wise and stops at the
shorter list, exactly as `List.zip` does. -/
def exactMatchFilters (fkl fvl : List String) : List (String × String) :=
  List.zip fkl fvl

/-- Embedding of `auto_retrieve_fn(query, filter_key_list, filter_value_list)`
from `6_llamaindex_RAQA_tool.ipynb`.  The library-provided retriever and
query engine (`VectorIndexRetriever`, `RetrieverQueryEngine`) are external;
they are abstracted as the `engine` argument, which receives exactly what the
notebook passes them: the constructed exact-match filters, the notebook's
`top_k`, and the (defaulted) query string. -/
def auto_retrieve_fn (engine : List (String × String) → Nat → String → String)
    (query : Option String) (fkl fvl : List String) : String :=
  engine (exactMatchFilters fkl fvl) top_k (defaultedQuery query)

end AutoRetrieve

namespace RagCore

/-! ## Theorems -/

/-- C2: inserting a vector whose length differs from the configured
dimensionality fails with `DimensionMismatch`, and the state the caller is
left with is exactly the index it had before the call (same entries, same
entry count). -/
theorem insert_dimension_mismatch (idx : VectorIndex) (text source : Text)
    (metadata : List (Text × Text)) (v : List ℚ) (h : v.length ≠ idx.dim) :
    idx.insert text source metadata v = .error .dimensionMismatch ∧
    idx.insertState text source metadata v = idx ∧
    (idx.insertState text source metadata v).entries.length =
      idx.entries.length := by
  refine ⟨?_, ?_, ?_⟩ <;>
    simp [VectorIndex.insert, VectorIndex.insertState, h]

theorem insert_dimension_mismatch_witness :
    (VectorIndex.empty 2).insert [] [] [] [(1 : ℚ)] =
      .error .dimensionMismatch ∧
    (VectorIndex.empty 2).insertState [] [] [] [(1 : ℚ)] =
      VectorIndex.empty 2 ∧
    ((VectorIndex.empty 2).insertState [] [] [] [(1 : ℚ)]).entries.length =
      (VectorIndex.empty 2).entries.length :=
  insert_dimension_mismatch (VectorIndex.empty 2) [] [] [] [(1 : ℚ)]
    (by decide)

/-- C7: when the Embedder collaborator fails, `retrieve` fails with
`EmbeddingError` carrying the collaborator's message unchanged; moreover the
Retriever consults the Embedder exactly once (attempt `0`): any embedder
agreeing with it on that single call — in particular one that would have
succeeded on a retry — produces the identical outcome. -/
theorem retrieve_embedding_error (idx : VectorIndex) (q : Query)
    (emb : Embedder) (m : Text) (h : emb 0 q.text = .error m) :
    retrieve idx q emb = .error (.embeddingError m) ∧
    ∀ emb2 : Embedder, emb2 0 q.text = emb 0 q.text →
      retrieve idx q emb2 = retrieve idx q emb := by
  refine ⟨by simp [retrieve, h], fun emb2 h2 => ?_⟩
  simp [retrieve, h2]

theorem retrieve_embedding_error_witness :
    retrieve (VectorIndex.empty 2) { text := [], topK := 3, filters := [] }
        (fun _ _ => .error ['x']) =
      .error (.embeddingError ['x']) ∧
    ∀ emb2 : Embedder,
      emb2 0 ({ text := [], topK := 3, filters := [] } : Query).text =
        (fun (_ : Nat) (_ : Text) => (.error ['x'] : Except Text (List ℚ))) 0
          ({ text := [], topK := 3, filters := [] } : Query).text →
      retrieve (VectorIndex.empty 2) { text := [], topK := 3, filters := [] }
          emb2 =
        retrieve (VectorIndex.empty 2) { text := [], topK := 3, filters := [] }
          (fun _ _ => .error ['x']) :=
  retrieve_embedding_error (VectorIndex.empty 2)
    { text := [], topK := 3, filters := [] } (fun _ _ => .error ['x']) ['x']
    rfl

/-- C6: `answer` always yields either a complete Answer or an error (never a
partial Answer), and when the LLM Client fails on the assembled prompt,
`answer` fails with `GenerationError` carrying the client's message. -/
theorem answer_generation_error (idx : VectorIndex) (q : Query)
    (emb : Embedder) (llm : LlmClient) (ps : List Passage) (m : Text)
    (hr : retrieve idx q emb = .ok ps)
    (hl : llm (assemble q.text ps) = .error m) :
    answer idx q emb llm = .error (.generationError m) ∧
    ∀ (idx2 : VectorIndex) (q2 : Query) (emb2 : Embedder) (llm2 : LlmClient),
      (∃ a, answer idx2 q2 emb2 llm2 = .ok a) ∨
        ∃ e, answer idx2 q2 emb2 llm2 = .error e := by
  refine ⟨by simp [answer, hr, hl], fun idx2 q2 emb2 llm2 => ?_⟩
  cases h : answer idx2 q2 emb2 llm2 with
  | error e => exact Or.inr ⟨e, rfl⟩
  | ok a => exact Or.inl ⟨a, rfl⟩

theorem answer_generation_error_witness :
    answer (VectorIndex.empty 2) { text := [], topK := 3, filters := [] }
        (fun _ _ => .ok [1, 0]) (fun _ => .error ['x']) =
      .error (.generationError ['x']) ∧
    ∀ (idx2 : VectorIndex) (q2 : Query) (emb2 : Embedder) (llm2 : LlmClient),
      (∃ a, answer idx2 q2 emb2 llm2 = .ok a) ∨
        ∃ e, answer idx2 q2 emb2 llm2 = .error e :=
  answer_generation_error (VectorIndex.empty 2)
    { text := [], topK := 3, filters := [] } (fun _ _ => .ok [1, 0])
    (fun _ => .error ['x']) [] ['x'] rfl rfl

/-- C8: the Orchestrator phase machine: once `Serving` is reached no event
(and hence no event sequence) ever leaves it, and the only possible phase
change of a step is `Indexing → Serving`, taken on `finishIngest`. -/
theorem orchestrator_no_return_to_indexing (o : Orchestrator)
    (ev : OrchEvent) (events : List OrchEvent) (h : o.phase = .serving) :
    (orchStep o ev).phase = .serving ∧
    (orchRun o events).phase = .serving ∧
    ∀ (o2 : Orchestrator) (ev2 : OrchEvent),
      (orchStep o2 ev2).phase ≠ o2.phase →
        o2.phase = .indexing ∧ (orchStep o2 ev2).phase = .serving ∧
          ev2 = .finishIngest := by
  have hstep : ∀ (o2 : Orchestrator), o2.phase = .serving →
      ∀ ev2 : OrchEvent, (orchStep o2 ev2).phase = .serving := by
    intro o2 h2 ev2
    cases ev2 <;> simp [orchStep, h2]
  refine ⟨hstep o h ev, ?_, ?_⟩
  · induction events generalizing o with
    | nil => exact h
    | cons e es ih => exact ih (orchStep o e) (hstep o h e)
  · intro o2 ev2 hne
    cases ev2 with
    | ingest text source metadata v =>
      exact absurd (by cases h2 : o2.phase <;> simp [orchStep, h2]) hne
    | finishIngest =>
      cases h2 : o2.phase with
      | indexing => exact ⟨rfl, by simp [orchStep, h2], rfl⟩
      | serving => exact absurd (by simp [orchStep, h2]) hne
    | ask q => exact absurd rfl hne

theorem orchestrator_no_return_to_indexing_witness :
    (orchStep { phase := .serving, index := VectorIndex.empty 2 }
        .finishIngest).phase = .serving ∧
    (orchRun { phase := .serving, index := VectorIndex.empty 2 }
        [.finishIngest, .ask { text := [], topK := 3, filters := [] }]).phase =
      .serving ∧
    ∀ (o2 : Orchestrator) (ev2 : OrchEvent),
      (orchStep o2 ev2).phase ≠ o2.phase →
        o2.phase = .indexing ∧ (orchStep o2 ev2).phase = .serving ∧
          ev2 = .finishIngest :=
  orchestrator_no_return_to_indexing
    { phase := .serving, index := VectorIndex.empty 2 } .finishIngest
    [.finishIngest, .ask { text := [], topK := 3, filters := [] }] rfl

/-! ### Search: top-k count, similarity ordering, ascending-id tie-break -/

/-- C1: on an index whose insertion ids are pairwise distinct (as the
monotonic counter guarantees), when at least `k` stored entries match the
filters, `search` returns exactly `k` passages — the passages of
`searchEntries` in order — and `searchEntries` is sorted by non-increasing
similarity score with every tie broken by strictly ascending insertion id;
every returned entry is a stored entry matching the filters. -/
theorem search_topk_sorted (idx : VectorIndex) (qv : List ℚ) (k : Nat)
    (filters : List (Text × Text))
    (hids : (idx.entries.map fun e => e.passage.id).Nodup)
    (hk : k ≤ (idx.entries.filter fun e =>
      matchesFilters e.passage.metadata filters).length) :
    idx.search qv k filters =
      (idx.searchEntries qv k filters).map (·.passage) ∧
    (idx.search qv k filters).length = k ∧
    (idx.searchEntries qv k filters).Pairwise (fun e₁ e₂ =>
      score qv e₂.vector ≤ score qv e₁.vector ∧
      (score qv e₁.vector = score qv e₂.vector →
        e₁.passage.id < e₂.passage.id)) ∧
    ∀ e ∈ idx.searchEntries qv k filters,
      e ∈ idx.entries ∧ matchesFilters e.passage.metadata filters = true := by
  have hl : idx.searchEntries qv k filters =
      ((idx.entries.filter fun e =>
        matchesFilters e.passage.metadata filters).insertionSort
          (entryBefore qv)).take k := rfl
  have hperm : List.Perm
      ((idx.entries.filter fun e =>
        matchesFilters e.passage.metadata filters).insertionSort
          (entryBefore qv))
      (idx.entries.filter fun e =>
        matchesFilters e.passage.metadata filters) :=
    List.perm_insertionSort _ _
  refine ⟨rfl, ?_, ?_, ?_⟩
  · rw [VectorIndex.search, List.length_map, hl, List.length_take,
      List.length_insertionSort]
    exact Nat.min_eq_left hk
  · have hsorted : (idx.searchEntries qv k filters).Pairwise
        (entryBefore qv) :=
      (List.sorted_insertionSort (entryBefore qv) _).sublist
        (hl ▸ List.take_sublist _ _)
    have hnodup : ((idx.searchEntries qv k filters).map
        fun e => e.passage.id).Nodup := by
      have h1 : ((idx.entries.filter fun e =>
          matchesFilters e.passage.metadata filters).map
            fun e => e.passage.id).Nodup :=
        hids.sublist ((List.filter_sublist _).map _)
      have h2 : (((idx.entries.filter fun e =>
          matchesFilters e.passage.metadata filters).insertionSort
            (entryBefore qv)).map fun e => e.passage.id).Nodup :=
        ((hperm.map _).nodup_iff).mpr h1
      exact h2.sublist ((hl ▸ List.take_sublist _ _).map _)
    have hne : (idx.searchEntries qv k filters).Pairwise
        (fun e₁ e₂ => e₁.passage.id ≠ e₂.passage.id) := by
      rw [List.Nodup, List.pairwise_map] at hnodup
      exact hnodup
    refine (hsorted.and hne).imp ?_
    rintro e₁ e₂ ⟨hb, hid⟩
    rcases hb with hlt | ⟨heq, hle⟩
    · exact ⟨le_of_lt hlt, fun heq => absurd heq (ne_of_gt hlt)⟩
    · exact ⟨heq.ge, fun _ => Nat.lt_of_le_of_ne hle hid⟩
  · intro e he
    have h1 : e ∈ (idx.entries.filter fun e =>
        matchesFilters e.passage.metadata filters).insertionSort
          (entryBefore qv) :=
      List.mem_of_mem_take (hl ▸ he)
    have h2 := hperm.subset h1
    exact List.mem_filter.mp h2

/-- First sample passage of `searchSampleIndex`. -/
def sampleP0 : Passage :=
  { id := 0, text := ['a'], source := ['s'], metadata := [(['t'], ['x'])] }

/-- Second sample passage of `searchSampleIndex`. -/
def sampleP1 : Passage :=
  { id := 1, text := ['b'], source := ['s'], metadata := [(['t'], ['x'])] }

/-- Third sample passage of `searchSampleIndex`; its metadata does not match
the filter used in the witness. -/
def sampleP2 : Passage :=
  { id := 2, text := ['c'], source := ['s'], metadata := [(['t'], ['y'])] }

/-- A sample populated index for the search theorem: three entries, two of
which match the filter `t = x`. -/
def searchSampleIndex : VectorIndex :=
  { dim := 2, nextId := 3,
    entries :=
      [{ passage := sampleP0, vector := [1, 0] },
       { passage := sampleP1, vector := [0, 1] },
       { passage := sampleP2, vector := [1, 1] }] }

theorem search_topk_sorted_witness :
    searchSampleIndex.search [1, 0] 2 [(['t'], ['x'])] =
      (searchSampleIndex.searchEntries [1, 0] 2 [(['t'], ['x'])]).map
        (·.passage) ∧
    (searchSampleIndex.search [1, 0] 2 [(['t'], ['x'])]).length = 2 ∧
    (searchSampleIndex.searchEntries [1, 0] 2 [(['t'], ['x'])]).Pairwise
      (fun e₁ e₂ =>
        score [1, 0] e₂.vector ≤ score [1, 0] e₁.vector ∧
        (score [1, 0] e₁.vector = score [1, 0] e₂.vector →
          e₁.passage.id < e₂.passage.id)) ∧
    ∀ e ∈ searchSampleIndex.searchEntries [1, 0] 2 [(['t'], ['x'])],
      e ∈ searchSampleIndex.entries ∧
        matchesFilters e.passage.metadata [(['t'], ['x'])] = true :=
  search_topk_sorted searchSampleIndex [1, 0] 2 [(['t'], ['x'])]
    (by decide) (by decide)

/-! ### The score orders vectors exactly as cosine similarity does -/

lemma normSq_nonneg (v : List ℚ) : 0 ≤ normSq v := by
  rw [normSq]
  induction v with
  | nil => simp [dot]
  | cons x xs ih =>
    rw [dot]
    have := mul_self_nonneg x
    have hxs : (0 : ℚ) ≤ dot xs xs := ih
    linarith

/-- The real cosine similarity of two rational vectors. -/
noncomputable def cosineSim (q v : List ℚ) : ℝ :=
  (dot q v : ℝ) / (Real.sqrt (normSq q) * Real.sqrt (normSq v))

lemma mul_abs_strictMono : StrictMono fun x : ℝ => x * |x| := by
  intro x y hxy
  show x * |x| < y * |y|
  rcases le_or_lt 0 x with hx | hx
  · have hy : 0 < y := lt_of_le_of_lt hx hxy
    simp only [abs_of_nonneg hx, abs_of_pos hy]
    nlinarith
  · rcases le_or_lt y 0 with hy | hy
    · simp only [abs_of_neg hx, abs_of_nonpos hy]
      nlinarith
    · have h1 : x * |x| < 0 := by
        rw [abs_of_neg hx]; nlinarith
      have h2 : 0 ≤ y * |y| := by
        rw [abs_of_pos hy]; positivity
      linarith

lemma score_eq_cosineSim_mul_abs (q v : List ℚ) (hq : normSq q ≠ 0)
    (hv : normSq v ≠ 0) :
    (score q v : ℝ) = cosineSim q v * |cosineSim q v| := by
  have hq0 : (0 : ℝ) < (normSq q : ℝ) := by
    exact_mod_cast lt_of_le_of_ne (normSq_nonneg q) (Ne.symm hq)
  have hv0 : (0 : ℝ) < (normSq v : ℝ) := by
    exact_mod_cast lt_of_le_of_ne (normSq_nonneg v) (Ne.symm hv)
  have hsq : Real.sqrt (normSq q) * Real.sqrt (normSq q) = (normSq q : ℝ) :=
    Real.mul_self_sqrt hq0.le
  have hsv : Real.sqrt (normSq v) * Real.sqrt (normSq v) = (normSq v : ℝ) :=
    Real.mul_self_sqrt hv0.le
  have hsq0 : (0 : ℝ) < Real.sqrt (normSq q) := Real.sqrt_pos.mpr hq0
  have hsv0 : (0 : ℝ) < Real.sqrt (normSq v) := Real.sqrt_pos.mpr hv0
  have hne : normSq q * normSq v ≠ 0 := mul_ne_zero hq hv
  rw [score, if_neg hne, cosineSim]
  push_cast
  rw [abs_div, abs_of_pos (mul_pos hsq0 hsv0), div_mul_div_comm]
  rw [show Real.sqrt (normSq q) * Real.sqrt (normSq v) *
        (Real.sqrt (normSq q) * Real.sqrt (normSq v)) =
      (Real.sqrt (normSq q) * Real.sqrt (normSq q)) *
        (Real.sqrt (normSq v) * Real.sqrt (normSq v)) by ring, hsq, hsv]

/-- The comparison that `search` performs on scores coincides with the
comparison of true (real-valued) cosine similarities: the score is the image
of the cosine under the strictly monotone map `x ↦ x * |x|`. -/
lemma score_le_iff_cosineSim_le (q u v : List ℚ) (hq : normSq q ≠ 0)
    (hu : normSq u ≠ 0) (hv : normSq v ≠ 0) :
    score q u ≤ score q v ↔ cosineSim q u ≤ cosineSim q v := by
  rw [show (score q u ≤ score q v) ↔
      ((score q u : ℝ) ≤ (score q v : ℝ)) by exact_mod_cast Iff.rfl]
  rw [score_eq_cosineSim_mul_abs q u hq hu, score_eq_cosineSim_mul_abs q v hq hv]
  exact mul_abs_strictMono.le_iff_le

/-! ### Reachable index states and the dimensionality invariant -/

/-- The index states reachable by the operations of the spec: construction of
an empty index, and insertion attempts (`insertState` covers both a
successful insertion and a failed one, which leaves the state untouched).
`search` takes no state argument back out and mutates nothing, being a pure
function. -/
inductive Reachable : VectorIndex → Prop where
  | empty (dim : Nat) : Reachable (VectorIndex.empty dim)
  | insertStep (idx : VectorIndex) (text source : Text)
      (metadata : List (Text × Text)) (v : List ℚ) :
      Reachable idx → Reachable (idx.insertState text source metadata v)

/-- In every reachable index state the insertion ids are bounded by the
monotonic counter and pairwise distinct; this discharges the distinct-ids
hypothesis of `search_topk_sorted` for every state the operations can
actually produce. -/
lemma reachable_ids_nodup (idx : VectorIndex) (h : Reachable idx) :
    (∀ e ∈ idx.entries, e.passage.id < idx.nextId) ∧
    (idx.entries.map fun e => e.passage.id).Nodup := by
  induction h with
  | empty dim =>
    exact ⟨by simp [VectorIndex.empty], by simp [VectorIndex.empty]⟩
  | insertStep idx text source metadata v _ ih =>
    by_cases hv : v.length = idx.dim
    · simp only [VectorIndex.insertState, VectorIndex.insert, hv, ne_eq,
        not_true_eq_false, if_false]
      constructor
      · intro e he
        simp only [List.mem_append, List.mem_singleton] at he
        rcases he with he | he
        · exact Nat.lt_trans (ih.1 e he) (Nat.lt_succ_self _)
        · subst he; exact Nat.lt_succ_self _
      · rw [List.map_append, List.nodup_append]
        refine ⟨ih.2, List.nodup_singleton _, ?_⟩
        intro a ha hb
        simp only [List.map_cons, List.map_nil, List.mem_singleton] at hb
        simp only [List.mem_map] at ha
        obtain ⟨e, he, rfl⟩ := ha
        exact absurd (hb ▸ ih.1 e he) (Nat.lt_irrefl _)
    · simpa [VectorIndex.insertState, VectorIndex.insert, hv] using ih

/-- Every stored entry's vector has the index's configured dimensionality. -/
def dimInv (idx : VectorIndex) : Prop :=
  ∀ e ∈ idx.entries, e.vector.length = idx.dim

/-- C5: in every reachable index state, every stored Index Entry's vector has
length equal to the configured dimensionality: the invariant holds at
construction and is preserved by every operation (`insert` either maintains
it or fails leaving the state untouched; `search` is a pure function and
never mutates state). -/
theorem reachable_dim_invariant (idx : VectorIndex) (h : Reachable idx) :
    dimInv idx := by
  induction h with
  | empty dim =>
    intro e he
    simp [VectorIndex.empty] at he
  | insertStep idx text source metadata v _ ih =>
    intro e he
    by_cases hv : v.length = idx.dim
    · simp only [VectorIndex.insertState, VectorIndex.insert, hv, ne_eq,
        not_true_eq_false, if_false, List.mem_append, List.mem_singleton]
        at he ⊢
      rcases he with he | he
      · exact ih e he
      · subst he; exact hv
    · simpa [VectorIndex.insertState, VectorIndex.insert, hv] using ih e
        (by simpa [VectorIndex.insertState, VectorIndex.insert, hv] using he)

/-- A sample reachable state for the invariant theorem: one successful
insertion into an empty two-dimensional index. -/
def sampleIndex : VectorIndex :=
  (VectorIndex.empty 2).insertState ['t'] ['s'] [] [1, 0]

theorem reachable_dim_invariant_witness : dimInv sampleIndex :=
  reachable_dim_invariant sampleIndex
    (Reachable.insertStep (VectorIndex.empty 2) ['t'] ['s'] [] [1, 0]
      (Reachable.empty 2))

/-! ### Prompt assembly -/

/-- The pieces of `texts` occur, in the given order and without reordering,
as disjoint substrings of `s`. -/
def occursInOrder : List Text → Text → Prop
  | [], _ => True
  | x :: xs, s => ∃ a b, s = a ++ x ++ b ∧ occursInOrder xs b

lemma occursInOrder_flatten (ps : List Passage) (pre suf : Text) :
    occursInOrder (ps.map Passage.text)
      (pre ++ (ps.map renderPassage).flatten ++ suf) := by
  induction ps generalizing pre with
  | nil => trivial
  | cons p rest ih =>
    refine ⟨pre ++ p.source ++ ": ".toList,
      '\n' :: ((rest.map renderPassage).flatten ++ suf), ?_, ?_⟩
    · simp [renderPassage, List.append_assoc]
    · simpa [List.append_assoc] using ih ['\n']

/-- C4: `assemble` is a deterministic pure function — identical query text
and identical ordered passage sequences yield the identical prompt string —
and the passages appear in the prompt in their given order, without
reordering. -/
theorem assemble_deterministic_ordered (q₁ q₂ : Text)
    (ps₁ ps₂ : List Passage) (hq : q₁ = q₂) (hp : ps₁ = ps₂) :
    assemble q₁ ps₁ = assemble q₂ ps₂ ∧
    occursInOrder (ps₁.map Passage.text) (assemble q₁ ps₁) := by
  subst hq hp
  exact ⟨rfl, occursInOrder_flatten ps₁ promptHeader q₁⟩

/-- A sample passage for the prompt-assembly witness. -/
def samplePassage : Passage :=
  { id := 0, text := "The cat sat on the mat.".toList,
    source := "KingLear.txt".toList, metadata := [] }

theorem assemble_deterministic_ordered_witness :
    assemble ['q'] [samplePassage] = assemble ['q'] [samplePassage] ∧
    occursInOrder ([samplePassage].map Passage.text)
      (assemble ['q'] [samplePassage]) :=
  assemble_deterministic_ordered ['q'] ['q'] [samplePassage] [samplePassage]
    rfl rfl

/-! ### Chunker round trip -/

lemma passagesOf_map_text (source : Text) (startId : Nat) (cs : List Text) :
    (passagesOf source startId cs).map Passage.text = cs := by
  induction cs generalizing startId with
  | nil => rfl
  | cons c cs ih => simp [passagesOf, ih]

lemma chunkText_ne_nil (size step : Nat) (t : Text) (h : t ≠ []) :
    chunkText size step t ≠ [] := by
  unfold chunkText
  split
  · simp [h]
  · simp

lemma dechunk_chunkText (size step : Nat) (hss : step ≤ size) (t : Text) :
    dechunk step (chunkText size step t) = t := by
  induction t using chunkText.induct size step with
  | case1 hbase =>
    rw [chunkText, if_pos hbase, if_pos rfl]
    rfl
  | case2 t hbase hnil =>
    rw [chunkText, if_pos hbase, if_neg hnil]
    rfl
  | case3 t hbase ih =>
    push_neg at hbase
    have hlen : size < t.length := hbase.1
    have hdrop : t.drop step ≠ [] := by
      have : 0 < (t.drop step).length := by
        simp only [List.length_drop]
        omega
      exact List.ne_nil_of_length_pos this
    obtain ⟨c, cs, hccs⟩ :=
      List.exists_cons_of_ne_nil (chunkText_ne_nil size step _ hdrop)
    rw [chunkText, if_neg (by push_neg; exact ⟨hlen, hbase.2⟩), hccs]
    show (t.take size).take step ++ dechunk step (c :: cs) = t
    rw [← hccs, ih, List.take_take, min_eq_left hss,
      List.take_append_drop]

/-- C3: concatenating the texts of the Chunker's passages, ignoring the
configured overlap (i.e. keeping of each non-final chunk only the first
`size - overlap` characters), yields the original input text exactly; and a
nonempty input always produces at least one Passage — in particular a
trailing fragment smaller than the minimum viable size is emitted as its own
Passage rather than dropped. -/
theorem chunker_roundtrip (source t : Text) (size overlap : Nat)
    (hov : overlap < size) :
    dechunk (size - overlap)
        ((chunkerPassages source size overlap t).map Passage.text) = t ∧
    (t ≠ [] → chunkerPassages source size overlap t ≠ []) := by
  constructor
  · rw [chunkerPassages, passagesOf_map_text]
    exact dechunk_chunkText size (size - overlap) (by omega) t
  · intro ht
    rw [chunkerPassages]
    intro hcontra
    exact chunkText_ne_nil size (size - overlap) t ht
      (by cases hcs : chunkText size (size - overlap) t with
          | nil => rfl
          | cons c cs => rw [hcs] at hcontra; exact absurd hcontra (by
              simp [passagesOf]))

theorem chunker_roundtrip_witness :
    dechunk (5 - 2)
        ((chunkerPassages ['s'] 5 2 "abcdefgh".toList).map Passage.text) =
      "abcdefgh".toList ∧
    ("abcdefgh".toList ≠ [] →
      chunkerPassages ['s'] 5 2 "abcdefgh".toList ≠ []) :=
  chunker_roundtrip ['s'] "abcdefgh".toList 5 2 (by decide)

end RagCore

namespace AutoRetrieve

/-- C9: a falsy query argument (Python `None` or the empty string) does not
make `auto_retrieve_fn` fail: the literal string `"Query"` is substituted and
issued to the retriever/query engine in place of the caller's query. -/
theorem auto_retrieve_defaults_empty_query
    (engine : List (String × String) → Nat → String → String)
    (query : Option String) (fkl fvl : List String)
    (h : query = none ∨ query = some "") :
    auto_retrieve_fn engine query fkl fvl =
      engine (exactMatchFilters fkl fvl) top_k "Query" := by
  rcases h with h | h <;> subst h <;> rfl

theorem auto_retrieve_defaults_empty_query_witness :
    auto_retrieve_fn (fun _ _ q => q) (some "") ["title"] ["Barbie (film)"] =
      (fun (_ : List (String × String)) (_ : Nat) (q : String) => q)
        (exactMatchFilters ["title"] ["Barbie (film)"]) top_k "Query" :=
  auto_retrieve_defaults_empty_query (fun _ _ q => q) (some "") ["title"]
    ["Barbie (film)"] (Or.inr rfl)

/-- C10: when `filter_key_list` and `filter_value_list` have different
lengths, `auto_retrieve_fn` raises no error: Python's `zip` silently
truncates, so the filters handed to the retriever are exactly the
position-wise pairs up to the shorter length, surplus keys or values being
ignored. -/
theorem auto_retrieve_zip_truncates
    (engine : List (String × String) → Nat → String → String)
    (query : Option String) (fkl fvl : List String)
    (h : fkl.length ≠ fvl.length) :
    auto_retrieve_fn engine query fkl fvl =
      engine (exactMatchFilters fkl fvl) top_k (defaultedQuery query) ∧
    (exactMatchFilters fkl fvl).length = min fkl.length fvl.length ∧
    ∀ (i : Nat) (h1 : i < fkl.length) (h2 : i < fvl.length)
      (hz : i < (exactMatchFilters fkl fvl).length),
      (exactMatchFilters fkl fvl).get ⟨i, hz⟩ =
        (fkl.get ⟨i, h1⟩, fvl.get ⟨i, h2⟩) := by
  refine ⟨rfl, List.length_zip fkl fvl, fun i h1 h2 hz => ?_⟩
  simp [exactMatchFilters, List.get_eq_getElem, List.getElem_zip]

theorem auto_retrieve_zip_truncates_witness :
    auto_retrieve_fn (fun _ _ q => q) (some "barbie") ["title", "year"]
        ["Barbie (film)"] =
      (fun (_ : List (String × String)) (_ : Nat) (q : String) => q)
        (exactMatchFilters ["title", "year"] ["Barbie (film)"]) top_k
        (defaultedQuery (some "barbie")) ∧
    (exactMatchFilters ["title", "year"] ["Barbie (film)"]).length =
      min ["title", "year"].length ["Barbie (film)"].length ∧
    ∀ (i : Nat) (h1 : i < ["title", "year"].length)
      (h2 : i < ["Barbie (film)"].length)
      (hz : i < (exactMatchFilters ["title", "year"] ["Barbie (film)"]).length),
      (exactMatchFilters ["title", "year"] ["Barbie (film)"]).get ⟨i, hz⟩ =
        (["title", "year"].get ⟨i, h1⟩, ["Barbie (film)"].get ⟨i, h2⟩) :=
  auto_retrieve_zip_truncates (fun _ _ q => q) (some "barbie")
    ["title", "year"] ["Barbie (film)"] (by decide)

end AutoRetrieve
